import Mathlib

/-!
Verification of the HDFS-to-local model synchronization daemon
(`sync.py` together with the data classes of `config.py`).

The embedding is shallow: local filesystem state is an explicit list of
entries (path, kind, mtime, content); the remote filesystem is a value
describing the listing that `pyarrow` would return; clock time is an
explicit `Int` parameter (a file written at time `t` gets mtime `t`,
mirroring `st_mtime` of a freshly written file).  Paths are lists of
components; `Path.resolve()` is lexical normalization of `.` and `..`
(no symlinks are modelled).  The `startswith` containment test of the
source is modelled verbatim as a character-level string test, because
its behaviour on sibling directories sharing a name prefix matters.
-/

set_option maxHeartbeats 1000000

/-- A path component list.  An absolute path `/a/b` is `["a", "b"]`. -/
abbrev FsPath := List String

/-- Python `str(Path(...))` for an absolute path: `/` followed by the
components joined with `/`. -/
def pathStr (p : FsPath) : String :=
  "/" ++ String.intercalate "/" p

/-- Split a character list at every `/`. -/
def splitSlash : List Char → List (List Char)
  | [] => [[]]
  | c :: rest =>
    match splitSlash rest with
    | [] => [[c]]
    | h :: t => if c = '/' then [] :: h :: t else (c :: h) :: t

/-- Splitting done by `pathlib` when a string containing `/` is joined to a
`Path` (and by `os.path.relpath` output read back as a path): split at
`/`, dropping empty components. -/
def splitPath (s : String) : List String :=
  ((splitSlash s.data).map (fun l => String.mk l)).filter (fun c => c ≠ "")

/-- Lexical normalization of `.` and `..`, as performed by `Path.resolve()`
on a symlink-free tree.  `..` at the root stays at the root. -/
def resolveComps (acc : List String) : List String → List String
  | [] => acc
  | c :: rest =>
    if c = "." ∨ c = "" then resolveComps acc rest
    else if c = ".." then resolveComps acc.dropLast rest
    else resolveComps (acc ++ [c]) rest

/-- `Path(...).resolve()` of an absolute component list. -/
def resolvePath (p : List String) : FsPath :=
  resolveComps [] p

/-- The containment test of `sync.py` line 163 and line 193:
`str(candidate.resolve()).startswith(str(local_model_root))`, performed on
the rendered strings character by character. -/
def contained (root candidate : FsPath) : Bool :=
  (pathStr root).data.isPrefixOf (pathStr candidate).data

/-- Component-wise "is inside the directory" relation: the real meaning of
path containment, used to state what the string test was meant to ensure. -/
def insideDir (root p : FsPath) : Bool :=
  root.isPrefixOf p

/-- `HdfsModelSyncer._should_update_file` (sync.py lines 112-122).
`remoteMtime` is `file_info.mtime` (`none` when HDFS reports no mtime);
`localMtime` is `local_file.stat().st_mtime` when `local_file.exists()`,
`none` otherwise. -/
def should_update_file (remoteMtime : Option Int) (localMtime : Option Int) : Bool :=
  match remoteMtime with
  | none => true
  | some m =>
    match localMtime with
    | some lm => decide (lm < m)
    | none => true

/-! ### Per-file model of `_copy_file_atomically` (sync.py lines 124-138)

State of the destination path and of its derived `.tmp` staging path:
each is absent or holds an (mtime, content) pair. -/

/-- The destination file and its staging `.tmp` file. -/
structure FileTarget where
  dest : Option (Int × String)
  tmp : Option (Int × String)
  deriving DecidableEq, Repr

/-- Where the body of the `try` block of `_copy_file_atomically` can raise:
opening the HDFS source, the streaming copy into the `.tmp` file (after `k`
characters were staged), or the final rename. -/
inductive CopyFailure where
  | openRemote
  | midWrite (k : Nat)
  | replaceFail
  deriving DecidableEq, Repr

/-- The `try` block of `_copy_file_atomically`: the state at the point the
exception is raised (for a failure), or the final state (for success, in
which `tmp_file.replace(local_file)` atomically installs the full
content). -/
def copyAttempt (remote : String) (now : Int) (s : FileTarget)
    : Option CopyFailure → FileTarget × Bool
  | some CopyFailure.openRemote => (s, false)
  | some (CopyFailure.midWrite k) => ({ s with tmp := some (now, remote.take k) }, false)
  | some CopyFailure.replaceFail => ({ s with tmp := some (now, remote) }, false)
  | none => ({ dest := some (now, remote), tmp := none }, true)

/-- The `except` handler of `_copy_file_atomically`: log, then
`if tmp_file.exists(): tmp_file.unlink(missing_ok=True)`. -/
def copyFailureHandler (s : FileTarget) : FileTarget :=
  if s.tmp.isSome then { s with tmp := none } else s

/-- `HdfsModelSyncer._copy_file_atomically`, per-file view: run the `try`
body; on failure run the handler.  Returns the resulting state and whether
the copy succeeded; no exception escapes. -/
def copy_file_atomically (remote : String) (outcome : Option CopyFailure) (now : Int)
    (s : FileTarget) : FileTarget × Bool :=
  let r := copyAttempt remote now s outcome
  if r.2 then r else (copyFailureHandler r.1, false)

/-! ### Local filesystem model

The local tree is a finite list of entries.  A real filesystem has at most
one entry per path; that well-formedness is taken as a hypothesis where a
proof needs it. -/

/-- One local filesystem object: its absolute resolved path, whether it is
a directory, its modification time and (for files) its content. -/
structure FsEntry where
  path : FsPath
  isDir : Bool
  mtime : Int
  content : String
  deriving DecidableEq, Repr

/-- The local filesystem state. -/
abbrev LocalFS := List FsEntry

/-- Stat of a path: the first entry recorded at it. -/
def lookupFs (fs : LocalFS) (p : FsPath) : Option FsEntry :=
  fs.find? (fun e => decide (e.path = p))

/-- `local_file.stat().st_mtime` guarded by `local_file.exists()` (Python
`exists()` is true for directories too, and `st_mtime` is then the
directory's mtime). -/
def mtimeAt (fs : LocalFS) (p : FsPath) : Option Int :=
  (lookupFs fs p).map (fun e => e.mtime)

/-- One `mkdir(exist_ok=True)` step: create a directory entry at `p` when
nothing is recorded there. -/
def mkdirOne (fs : LocalFS) (p : FsPath) (now : Int) : LocalFS :=
  match lookupFs fs p with
  | some _ => fs
  | none => fs ++ [⟨p, true, now, ""⟩]

/-- The non-empty initial segments of a path: all the directories that
`mkdir(parents=True)` has to ensure. -/
def ancestorsOf (p : FsPath) : List FsPath :=
  (List.range p.length).map (fun i => p.take (i + 1))

/-- `Path.mkdir(parents=True, exist_ok=True)`. -/
def mkdirParents (fs : LocalFS) (p : FsPath) (now : Int) : LocalFS :=
  (ancestorsOf p).foldl (fun fs q => mkdirOne fs q now) fs

/-- Writing a file at `p`: whatever was recorded at `p` is replaced by a
fresh file entry carrying the write-time `now` as mtime. -/
def writeFileAt (fs : LocalFS) (p : FsPath) (now : Int) (content : String) : LocalFS :=
  fs.filter (fun e => !decide (e.path = p)) ++ [⟨p, false, now, content⟩]

/-- The successful path of `_copy_file_atomically` as seen by the local
tree: ensure the parent directories, then atomically install the content
(sync.py lines 128-134).  Failure handling of the copy is the per-file
model `copy_file_atomically` above; the directory walk below uses the
success path. -/
def copy_file_atomically_fs (fs : LocalFS) (p : FsPath) (content : String) (now : Int) : LocalFS :=
  writeFileAt (mkdirParents fs p.dropLast now) p now content

/-! ### Remote filesystem model -/

/-- One entry of the recursive HDFS listing, already expressed relative to
the listed directory: `relPath` is `os.path.relpath(file_info.path,
hdfs_dir)` (which may contain `..` segments), `isFile` is whether
`file_info.type == FileType.File`. -/
structure RemoteFile where
  relPath : String
  mtime : Option Int
  content : String
  isFile : Bool
  deriving DecidableEq, Repr

/-- A remote path as seen through `get_file_info`: whether it is a
directory, and (when it is) its recursive listing. -/
structure RemoteDir where
  isDir : Bool
  files : List RemoteFile
  deriving DecidableEq, Repr

/-- The candidate local path of one remote entry:
`local_file = local_dir / rel_path` followed by `.resolve()`
(sync.py lines 159-163). -/
def targetOf (localDir : FsPath) (f : RemoteFile) : FsPath :=
  resolvePath (localDir ++ splitPath f.relPath)

/-- The body of the per-entry loop of `_sync_directory` (sync.py lines
155-171), threading the local tree and the number of copies performed. -/
def syncStep (root localDir : FsPath) (now : Int) (acc : LocalFS × Nat) (f : RemoteFile) :
    LocalFS × Nat :=
  if !f.isFile then acc
  else if !contained root (targetOf localDir f) then acc
  else if should_update_file f.mtime (mtimeAt acc.1 (targetOf localDir f)) then
    (copy_file_atomically_fs acc.1 (targetOf localDir f) f.content now, acc.2 + 1)
  else acc

/-- `HdfsModelSyncer._sync_directory` (sync.py lines 140-171): ensure the
local directory (line 147, before the remote check), bail out with a
warning when the remote path is not a directory (lines 149-152), else walk
the recursive listing.  Also returns how many file copies were
performed. -/
def sync_directory (root : FsPath) (remote : RemoteDir) (localDir : FsPath) (now : Int)
    (fs : LocalFS) : LocalFS × Nat :=
  if remote.isDir then
    remote.files.foldl (syncStep root localDir now) (mkdirParents fs localDir now, 0)
  else (mkdirParents fs localDir now, 0)

/-! ### Manifest data model (config.py) -/

/-- `config.ModelEntry`.  The two mappings are association lists in the
manifest's (Python `dict` insertion) order. -/
structure ModelEntry where
  name : String
  base_path : String
  model_platform : String
  version_labels : List (String × Int)
  version_policy : List (String × String)
  deriving DecidableEq, Repr

/-- `config.ModelConfigList`. -/
structure ModelConfigList where
  model_config : List ModelEntry
  deriving DecidableEq, Repr

/-- `_parse_model_config` (sync.py lines 57-71): the YAML/dacite decoding
itself is external; its outcome is `none` when decoding raised.  The
`except` branch returns an empty `ModelConfigList`. -/
def _parse_model_config (decoded : Option ModelConfigList) : ModelConfigList :=
  decoded.getD ⟨[]⟩

/-! ### Registry builder (sync.py lines 37-54 and 220-238) -/

/-- The per-model dictionary collected at sync.py lines 199-207. -/
structure LocalModel where
  name : String
  base_path : String
  model_platform : String
  version_labels : List (String × Int)
  version_policy : List (String × String)
  deriving DecidableEq, Repr

/-- `_format_version_labels` (sync.py lines 37-44). -/
def _format_version_labels (labels : List (String × Int)) : String :=
  if labels = [] then ""
  else
    "  version_labels \x7b\n" ++
      String.intercalate ",\n"
        (labels.map (fun kv => "      \"" ++ kv.1 ++ "\": " ++ toString kv.2)) ++
      "\n  \x7d"

/-- `_format_version_policy` (sync.py lines 47-54). -/
def _format_version_policy (policy : List (String × String)) : String :=
  if policy = [] then ""
  else
    "  version_policy \x7b\n" ++
      String.intercalate "\n"
        (policy.map (fun kv => "      " ++ kv.1 ++ ": " ++ kv.2)) ++
      "\n  \x7d"

/-- The body of the per-model loop at sync.py lines 221-235: append the
fixed field lines, then the two conditional blocks
(`if m["version_labels"]:` is Python truthiness, i.e. non-empty), then
the block-closing line. -/
def configModelStep (config_lines : List String) (m : LocalModel) : List String :=
  let config_lines := config_lines ++
    ["  config \x7b",
     "    name: \"" ++ m.name ++ "\"",
     "    base_path: \"" ++ m.base_path ++ "\"",
     "    model_platform: \"" ++ m.model_platform ++ "\""]
  let config_lines :=
    if m.version_labels ≠ [] then config_lines ++ [_format_version_labels m.version_labels]
    else config_lines
  let config_lines :=
    if m.version_policy ≠ [] then config_lines ++ [_format_version_policy m.version_policy]
    else config_lines
  config_lines ++ ["  \x7d"]

/-- The `config_lines` accumulation of sync.py lines 220-236: the header,
the per-model loop, the closing brace. -/
def config_lines (local_models : List LocalModel) : List String :=
  (local_models.foldl configModelStep ["model_config_list \x7b"]) ++ ["\x7d"]

/-- `"\n".join(config_lines)` (sync.py line 238). -/
def render_config (local_models : List LocalModel) : String :=
  String.intercalate "\n" (config_lines local_models)

/-- The block of lines one model contributes to the registry document, as
the specification describes it: name, base path, platform, then a
`version_labels` block exactly when the labels mapping is non-empty, then
a `version_policy` block exactly when the policy mapping is non-empty. -/
def modelBlockLines (m : LocalModel) : List String :=
  ["  config \x7b",
   "    name: \"" ++ m.name ++ "\"",
   "    base_path: \"" ++ m.base_path ++ "\"",
   "    model_platform: \"" ++ m.model_platform ++ "\""] ++
  (if m.version_labels ≠ [] then [_format_version_labels m.version_labels] else []) ++
  (if m.version_policy ≠ [] then [_format_version_policy m.version_policy] else []) ++
  ["  \x7d"]

/-! ### Deletion reconciliation and the full cycle (sync.py lines 174-244) -/

/-- Whether the entry recorded at `p` is a directory (`item.is_dir()`). -/
def childIsDir (fs : LocalFS) (p : FsPath) : Bool :=
  match lookupFs fs p with
  | some e => e.isDir
  | none => false

/-- Whether `shutil.rmtree` of the deletion loop (sync.py lines 211-213)
removes `e`: `e` lies under a direct child of the root whose entry is a
directory and whose name is not among the expected model names. -/
def staleEntry (root : FsPath) (expected : List String) (fs : LocalFS) (e : FsEntry) : Bool :=
  root.isPrefixOf e.path &&
    (match e.path.drop root.length with
     | [] => false
     | name :: _ => !expected.contains name && childIsDir fs (root ++ [name]))

/-- The deletion loop of `run_once` (sync.py lines 209-214): every
direct-child directory of the root whose name is not expected is removed
together with its subtree; everything else stays. -/
def deleteStale (root : FsPath) (expected : List String) (fs : LocalFS) : LocalFS :=
  fs.filter (fun e => !staleEntry root expected fs e)

/-- The per-model step of `run_once` (sync.py lines 189-207): resolve
`local_model_root / name`, reject names failing the `startswith` check,
otherwise sync the model's directory and record its `LocalModel` row.
The accumulator threads the tree, the collected rows and the copy count. -/
def runOnceModelStep (root : FsPath) (hdfs : String → RemoteDir) (now : Int)
    (acc : LocalFS × List LocalModel × Nat) (me : ModelEntry) :
    LocalFS × List LocalModel × Nat :=
  let local_path := resolvePath (root ++ splitPath me.name)
  if !contained root local_path then acc
  else
    let r := sync_directory root (hdfs me.base_path) local_path now acc.1
    (r.1,
     acc.2.1 ++ [⟨me.name, pathStr local_path, me.model_platform,
                 me.version_labels, me.version_policy⟩],
     acc.2.2 + r.2)

/-- `HdfsModelSyncer.run_once` (sync.py lines 174-244), given the decoding
outcome of the fetched manifest and the remote tree behind each
`base_path`: sync every declared model, then delete stale local model
directories, then write `models.config`.  Returns the tree and the total
number of file copies. -/
def run_once (root : FsPath) (decoded : Option ModelConfigList) (hdfs : String → RemoteDir)
    (now : Int) (fs : LocalFS) : LocalFS × Nat :=
  let hdfs_models := _parse_model_config decoded
  let r := hdfs_models.model_config.foldl (runOnceModelStep root hdfs now) (fs, [], 0)
  let expected := hdfs_models.model_config.map (fun m => m.name)
  let fs2 := deleteStale root expected r.1
  let fs3 := writeFileAt fs2 (root ++ ["models.config"]) now (render_config r.2.1)
  (fs3, r.2.2)

/-- `run_continuously` (sync.py line 254): the effective sleep, in
seconds, between cycles. -/
def run_continuously_interval (sync_interval_minutes : Int) : Int :=
  max 60 (sync_interval_minutes * 60)

/-- A path is covered at bound `m`: an entry is recorded there whose mtime
is at least `m`.  Such a file is never re-transferred by
`_should_update_file` for a remote mtime of `m`. -/
def coveredAt (fs : LocalFS) (p : FsPath) (m : Int) : Prop :=
  ∃ e, lookupFs fs p = some e ∧ m ≤ e.mtime

/-! ### Helper lemmas on the filesystem model -/

theorem find?_append_some {α : Type} (p : α → Bool) (l l' : List α) (a : α)
    (h : l.find? p = some a) : (l ++ l').find? p = some a := by
  induction l with
  | nil => simp [List.find?] at h
  | cons x xs ih =>
    by_cases hx : p x = true
    · rw [List.find?_cons_of_pos _ hx] at h
      rw [List.cons_append, List.find?_cons_of_pos _ hx]
      exact h
    · rw [List.find?_cons_of_neg _ hx] at h
      rw [List.cons_append, List.find?_cons_of_neg _ hx]
      exact ih h

theorem find?_append_none {α : Type} (p : α → Bool) (l l' : List α)
    (h : l.find? p = none) : (l ++ l').find? p = l'.find? p := by
  induction l with
  | nil => rfl
  | cons x xs ih =>
    by_cases hx : p x = true
    · rw [List.find?_cons_of_pos _ hx] at h
      exact absurd h (by simp)
    · rw [List.find?_cons_of_neg _ hx] at h
      rw [List.cons_append, List.find?_cons_of_neg _ hx]
      exact ih h

theorem find?_filter_of_imp {α : Type} (p keep : α → Bool) (l : List α)
    (h : ∀ a, p a = true → keep a = true) :
    (l.filter keep).find? p = l.find? p := by
  induction l with
  | nil => rfl
  | cons x xs ih =>
    by_cases hp : p x = true
    · rw [List.filter_cons_of_pos (h x hp), List.find?_cons_of_pos _ hp,
        List.find?_cons_of_pos _ hp]
    · by_cases hk : keep x = true
      · rw [List.filter_cons_of_pos hk, List.find?_cons_of_neg _ hp,
          List.find?_cons_of_neg _ hp]
        exact ih
      · rw [List.filter_cons_of_neg (by simpa using hk), List.find?_cons_of_neg _ hp]
        exact ih

theorem lookupFs_writeFileAt_self (fs : LocalFS) (p : FsPath) (t : Int) (c : String) :
    lookupFs (writeFileAt fs p t c) p = some ⟨p, false, t, c⟩ := by
  unfold lookupFs writeFileAt
  have hnone : (fs.filter (fun e => !decide (e.path = p))).find?
      (fun e => decide (e.path = p)) = none := by
    rw [List.find?_eq_none]
    intro e he
    have h2 := (List.mem_filter.mp he).2
    simp only [Bool.not_eq_true', decide_eq_false_iff_not] at h2
    simpa using h2
  rw [find?_append_none _ _ _ hnone]
  simp [List.find?]

theorem lookupFs_writeFileAt_ne (fs : LocalFS) (p q : FsPath) (t : Int) (c : String)
    (h : q ≠ p) : lookupFs (writeFileAt fs p t c) q = lookupFs fs q := by
  unfold lookupFs writeFileAt
  have hfilter : (fs.filter (fun e => !decide (e.path = p))).find?
      (fun e => decide (e.path = q)) = fs.find? (fun e => decide (e.path = q)) := by
    apply find?_filter_of_imp
    intro a ha
    simp only [decide_eq_true_eq] at ha
    simp [ha, h]
  cases hf : (fs.filter (fun e => !decide (e.path = p))).find?
      (fun e => decide (e.path = q)) with
  | some a =>
    rw [find?_append_some _ _ _ _ hf, ← hfilter, hf]
  | none =>
    rw [find?_append_none _ _ _ hf, ← hfilter, hf]
    simp [List.find?, h.symm]

theorem lookupFs_mkdirOne_some (fs : LocalFS) (p q : FsPath) (t : Int) (e : FsEntry)
    (h : lookupFs fs q = some e) : lookupFs (mkdirOne fs p t) q = some e := by
  unfold mkdirOne
  split
  · exact h
  · exact find?_append_some _ _ _ _ h

theorem lookupFs_foldl_mkdirOne (l : List FsPath) (fs : LocalFS) (q : FsPath) (t : Int)
    (e : FsEntry) (h : lookupFs fs q = some e) :
    lookupFs (l.foldl (fun fs r => mkdirOne fs r t) fs) q = some e := by
  induction l generalizing fs with
  | nil => exact h
  | cons x xs ih => exact ih _ (lookupFs_mkdirOne_some _ _ _ _ _ h)

theorem lookupFs_mkdirParents_some (fs : LocalFS) (p q : FsPath) (t : Int) (e : FsEntry)
    (h : lookupFs fs q = some e) : lookupFs (mkdirParents fs p t) q = some e :=
  lookupFs_foldl_mkdirOne _ _ _ _ _ h

theorem mem_mkdirOne (fs : LocalFS) (p : FsPath) (t : Int) (e : FsEntry)
    (h : e ∈ fs) : e ∈ mkdirOne fs p t := by
  unfold mkdirOne
  split
  · exact h
  · exact List.mem_append.mpr (Or.inl h)

theorem mem_foldl_mkdirOne (l : List FsPath) (fs : LocalFS) (t : Int) (e : FsEntry)
    (h : e ∈ fs) : e ∈ l.foldl (fun fs r => mkdirOne fs r t) fs := by
  induction l generalizing fs with
  | nil => exact h
  | cons x xs ih => exact ih _ (mem_mkdirOne _ _ _ _ h)

theorem mem_mkdirParents (fs : LocalFS) (p : FsPath) (t : Int) (e : FsEntry)
    (h : e ∈ fs) : e ∈ mkdirParents fs p t :=
  mem_foldl_mkdirOne _ _ _ _ h

theorem lookupFs_of_mem_nodup (fs : LocalFS) (e : FsEntry)
    (hwf : (fs.map FsEntry.path).Nodup) (he : e ∈ fs) :
    lookupFs fs e.path = some e := by
  induction fs with
  | nil => cases he
  | cons d ds ih =>
    rw [List.map_cons, List.nodup_cons] at hwf
    cases List.mem_cons.mp he with
    | inl h =>
      subst h
      unfold lookupFs
      rw [List.find?_cons_of_pos _ (by simp)]
    | inr h =>
      have hne : ¬(d.path = e.path) := by
        intro hEq
        exact hwf.1 (hEq ▸ List.mem_map.mpr ⟨e, h, rfl⟩)
      unfold lookupFs
      rw [List.find?_cons_of_neg _ (by simpa using hne)]
      exact ih hwf.2 h

theorem isPrefixOf_self_append {α : Type} [BEq α] [LawfulBEq α] (l t : List α) :
    l.isPrefixOf (l ++ t) = true := by
  induction l with
  | nil => rw [List.nil_append]; cases t <;> rfl
  | cons x xs ih => simp [List.isPrefixOf, ih]

/-! ### Coverage: a local file whose mtime already dominates the remote
mtime is never re-transferred.  These lemmas track that fact through the
sync walk. -/

theorem coveredAt_mkdirParents (fs : LocalFS) (p q : FsPath) (t m : Int)
    (h : coveredAt fs q m) : coveredAt (mkdirParents fs p t) q m := by
  obtain ⟨e, he, hm⟩ := h
  exact ⟨e, lookupFs_mkdirParents_some _ _ _ _ _ he, hm⟩

theorem coveredAt_writeFileAt (fs : LocalFS) (p q : FsPath) (t : Int) (c : String) (m : Int)
    (hm : m ≤ t) (h : coveredAt fs q m) : coveredAt (writeFileAt fs p t c) q m := by
  by_cases hpq : q = p
  · subst hpq
    exact ⟨⟨q, false, t, c⟩, lookupFs_writeFileAt_self _ _ _ _, hm⟩
  · obtain ⟨e, he, hme⟩ := h
    exact ⟨e, by rw [lookupFs_writeFileAt_ne _ _ _ _ _ hpq]; exact he, hme⟩

theorem coveredAt_writeFileAt_self (fs : LocalFS) (p : FsPath) (t : Int) (c : String) (m : Int)
    (hm : m ≤ t) : coveredAt (writeFileAt fs p t c) p m :=
  ⟨⟨p, false, t, c⟩, lookupFs_writeFileAt_self _ _ _ _, hm⟩

theorem coveredAt_copy (fs : LocalFS) (p q : FsPath) (c : String) (t m : Int)
    (hm : m ≤ t) (h : coveredAt fs q m) :
    coveredAt (copy_file_atomically_fs fs p c t) q m :=
  coveredAt_writeFileAt _ _ _ _ _ _ hm (coveredAt_mkdirParents _ _ _ _ _ h)

theorem coveredAt_copy_self (fs : LocalFS) (p : FsPath) (c : String) (t m : Int)
    (hm : m ≤ t) : coveredAt (copy_file_atomically_fs fs p c t) p m :=
  coveredAt_writeFileAt_self _ _ _ _ _ hm

theorem coveredAt_syncStep (root localDir : FsPath) (now : Int) (acc : LocalFS × Nat)
    (f : RemoteFile) (q : FsPath) (m : Int) (hm : m ≤ now) (h : coveredAt acc.1 q m) :
    coveredAt (syncStep root localDir now acc f).1 q m := by
  unfold syncStep
  split_ifs with h1 h2 h3
  · exact h
  · exact h
  · exact coveredAt_copy _ _ _ _ _ _ hm h
  · exact h

theorem coveredAt_foldl_syncStep (root localDir : FsPath) (now : Int)
    (files : List RemoteFile) (acc : LocalFS × Nat) (q : FsPath) (m : Int)
    (hm : m ≤ now) (h : coveredAt acc.1 q m) :
    coveredAt ((files.foldl (syncStep root localDir now) acc)).1 q m := by
  induction files generalizing acc with
  | nil => exact h
  | cons f rest ih => exact ih _ (coveredAt_syncStep _ _ _ _ _ _ _ hm h)

theorem syncStep_establishes (root localDir : FsPath) (now : Int) (acc : LocalFS × Nat)
    (f : RemoteFile) (m : Int) (hfile : f.isFile = true)
    (hcont : contained root (targetOf localDir f) = true)
    (hmt : f.mtime = some m) (hm : m ≤ now) :
    coveredAt (syncStep root localDir now acc f).1 (targetOf localDir f) m := by
  unfold syncStep
  rw [hfile, hcont]
  simp only [Bool.not_true, Bool.false_eq_true, if_false]
  cases hu : should_update_file f.mtime (mtimeAt acc.1 (targetOf localDir f)) with
  | true =>
    simp only [if_true]
    exact coveredAt_copy_self _ _ _ _ _ hm
  | false =>
    simp only [Bool.false_eq_true, if_false]
    rw [hmt] at hu
    cases hl : mtimeAt acc.1 (targetOf localDir f) with
    | none => rw [hl] at hu; exact absurd hu (by simp [should_update_file])
    | some lm =>
      rw [hl] at hu
      have hle : m ≤ lm := by
        have : decide (lm < m) = false := hu
        simpa using of_decide_eq_false this
      obtain ⟨e, he, hem⟩ := Option.map_eq_some'.mp hl
      exact ⟨e, he, hem ▸ hle⟩

theorem syncRun_covered (root localDir : FsPath) (now : Int) (f : RemoteFile) (m : Int)
    (hfile : f.isFile = true) (hcont : contained root (targetOf localDir f) = true)
    (hmt : f.mtime = some m) (hm : m ≤ now) :
    ∀ (files : List RemoteFile) (acc : LocalFS × Nat), f ∈ files →
    coveredAt ((files.foldl (syncStep root localDir now) acc)).1 (targetOf localDir f) m := by
  intro files
  induction files with
  | nil => intro acc hf; cases hf
  | cons g gs ih =>
    intro acc hf
    rw [List.foldl_cons]
    cases List.mem_cons.mp hf with
    | inl hEq =>
      subst hEq
      exact coveredAt_foldl_syncStep _ _ _ _ _ _ _ hm
        (syncStep_establishes _ _ _ _ _ _ hfile hcont hmt hm)
    | inr hmem => exact ih _ hmem

theorem syncRun_skip (root localDir : FsPath) (now : Int) :
    ∀ (files : List RemoteFile) (fs : LocalFS) (n : Nat),
    (∀ f ∈ files, f.isFile = true → contained root (targetOf localDir f) = true →
      ∃ m, f.mtime = some m ∧ coveredAt fs (targetOf localDir f) m) →
    files.foldl (syncStep root localDir now) (fs, n) = (fs, n) := by
  intro files
  induction files with
  | nil => intro fs n _; rfl
  | cons g gs ih =>
    intro fs n h
    rw [List.foldl_cons]
    have hstep : syncStep root localDir now (fs, n) g = (fs, n) := by
      unfold syncStep
      by_cases hfile : g.isFile = true
      · by_cases hcont : contained root (targetOf localDir g) = true
        · obtain ⟨m, hmt, e, he, hme⟩ := h g (List.mem_cons_self _ _) hfile hcont
          have hmt' : mtimeAt fs (targetOf localDir g) = some e.mtime := by
            simp [mtimeAt, he]
          have hupd : should_update_file g.mtime (mtimeAt fs (targetOf localDir g)) = false := by
            rw [hmt, hmt']
            show decide (e.mtime < m) = false
            exact decide_eq_false (not_lt.mpr hme)
          simp [hfile, hcont, hupd]
        · simp only [Bool.not_eq_true] at hcont
          simp [hfile, hcont]
      · simp only [Bool.not_eq_true] at hfile
        simp [hfile]
    rw [hstep]
    exact ih fs n (fun f hf hfi hc => h f (List.mem_cons.mpr (Or.inr hf)) hfi hc)

/-! ### Registry builder lemmas -/

theorem configModelStep_eq (acc : List String) (m : LocalModel) :
    configModelStep acc m = acc ++ modelBlockLines m := by
  unfold configModelStep modelBlockLines
  by_cases h1 : m.version_labels = [] <;> by_cases h2 : m.version_policy = [] <;>
    simp [h1, h2, List.append_assoc]

theorem foldl_configModelStep (ms : List LocalModel) (acc : List String) :
    ms.foldl configModelStep acc = acc ++ ms.flatMap modelBlockLines := by
  induction ms generalizing acc with
  | nil => simp
  | cons m rest ih =>
    rw [List.foldl_cons, configModelStep_eq, ih]
    simp [List.append_assoc]

/-! ### Claim theorems -/

/-- C2: on any failure of `_copy_file_atomically` during read, staging
write or rename, the call reports failure without raising, the temporary
file is gone afterwards, and the destination is exactly what it was before
the call — including at the moment the exception was raised, so an
observer never sees a truncated destination. -/
theorem copy_file_atomically_failure_safe :
    ∀ (remote : String) (failure : CopyFailure) (now : Int) (s : FileTarget),
      (copy_file_atomically remote (some failure) now s).2 = false ∧
      (copy_file_atomically remote (some failure) now s).1.tmp = none ∧
      (copy_file_atomically remote (some failure) now s).1.dest = s.dest ∧
      (copyAttempt remote now s (some failure)).1.dest = s.dest := by
  intro remote failure now s
  cases failure <;>
    simp only [copy_file_atomically, copyAttempt, copyFailureHandler] <;>
    cases h : s.tmp <;> simp [h]

/-- C3: the update decision of `_should_update_file`: a remote entry with
no modification time always transfers; with a modification time but no
local file, it transfers; otherwise it transfers exactly when the remote
modification time is strictly newer than the local one. -/
theorem should_update_file_spec :
    (∀ lm : Option Int, should_update_file none lm = true) ∧
    (∀ m : Int, should_update_file (some m) none = true) ∧
    (∀ m lm : Int, should_update_file (some m) (some lm) = true ↔ lm < m) := by
  refine ⟨fun lm => rfl, fun m => rfl, fun m lm => ?_⟩
  show decide (lm < m) = true ↔ lm < m
  exact decide_eq_true_iff

/-- C7: the registry document consists of the list header, then exactly
one block per model in manifest declaration order, then the closing line;
each model's block (`modelBlockLines`) lists name, base path and platform
in that fixed order, followed by a `version_labels` block exactly when the
labels mapping is non-empty, and a `version_policy` block exactly when the
policy mapping is non-empty. -/
theorem config_lines_blocks (local_models : List LocalModel) :
    config_lines local_models =
      "model_config_list \x7b" :: (local_models.flatMap modelBlockLines ++ ["\x7d"]) := by
  rw [config_lines, foldl_configModelStep]
  simp

/-- C8: the continuous-mode wait is the configured number of minutes times
60 seconds, floored at 60 seconds, for every configured value; in
particular a configured interval of 0 minutes waits 60 seconds. -/
theorem run_continuously_interval_spec :
    (∀ m : Int, 60 ≤ run_continuously_interval m) ∧
    (∀ m : Int, 60 ≤ m * 60 → run_continuously_interval m = m * 60) ∧
    (∀ m : Int, m * 60 ≤ 60 → run_continuously_interval m = 60) ∧
    run_continuously_interval 0 = 60 := by
  refine ⟨fun m => ?_, fun m h => ?_, fun m h => ?_, by decide⟩
  · exact le_max_left _ _
  · exact max_eq_right h
  · exact max_eq_left h

/-- Witness for C8 at concrete intervals 2, 0 and -3 minutes. -/
theorem run_continuously_interval_spec_witness :
    run_continuously_interval 2 = 2 * 60 ∧ run_continuously_interval 0 = 60 ∧
    run_continuously_interval (-3) = 60 :=
  ⟨run_continuously_interval_spec.2.1 2 (by decide),
   run_continuously_interval_spec.2.2.2,
   run_continuously_interval_spec.2.2.1 (-3) (by decide)⟩

/-- C1 (the code violates the claim): with local model root
`/data/models`, a manifest model named `../models_evil` resolves to
`/data/models_evil` — outside the root — yet passes the `startswith`
check of `run_once` (and its file passes the `startswith` check of
`_sync_directory`), because `/data/models` is a character prefix of
`/data/models_evil` even though it is not a path prefix.  One cycle then
writes the file `/data/models_evil/f` outside the local model root. -/
theorem run_once_writes_outside_root :
    (lookupFs (run_once ["data", "models"]
        (some ⟨[⟨"../models_evil", "h", "tensorflow", [], []⟩]⟩)
        (fun s => if s = "h" then ⟨true, [⟨"f", some 0, "x", true⟩]⟩ else ⟨false, []⟩)
        5 []).1 ["data", "models_evil", "f"]).isSome = true ∧
    insideDir ["data", "models"] ["data", "models_evil", "f"] = false := by
  decide

/-- C5 counterexample: against an unchanged remote tree containing a file
that reports no modification time, the second run of `_sync_directory`
still performs a transfer. -/
theorem second_sync_transfers_on_missing_mtime :
    (sync_directory ["r"] ⟨true, [⟨"f", none, "x", true⟩]⟩ ["r", "m"] 1
      (sync_directory ["r"] ⟨true, [⟨"f", none, "x", true⟩]⟩ ["r", "m"] 0 []).1).2 ≠ 0 := by
  decide

/-- C6 counterexample: when the remote path is not a directory,
`_sync_directory` has already created the local target directory (line 147
runs before the existence check of line 150), so the local filesystem is
not left unchanged. -/
theorem sync_directory_missing_remote_creates_dir :
    (sync_directory ["r"] ⟨false, []⟩ ["r", "m"] 0 []).1 ≠ ([] : LocalFS) := by
  decide

/-- Shared deletion-completeness helper: an entry lying beneath a
top-level directory of the root whose name is not expected does not
survive `deleteStale`. -/
theorem not_mem_deleteStale (root : FsPath) (expected : List String) (fs : LocalFS)
    (e : FsEntry) (name : String) (rest : List String)
    (hpath : e.path = root ++ name :: rest) (hname : expected.contains name = false)
    (hdir : childIsDir fs (root ++ [name]) = true) :
    e ∉ deleteStale root expected fs := by
  intro hmem
  have h2 := (List.mem_filter.mp hmem).2
  have hstale : staleEntry root expected fs e = true := by
    unfold staleEntry
    rw [hpath]
    rw [List.drop_left]
    show (root.isPrefixOf (root ++ name :: rest) &&
      (!expected.contains name && childIsDir fs (root ++ [name]))) = true
    rw [isPrefixOf_self_append, hname, hdir]
    rfl
  rw [hstale] at h2
  exact absurd h2 (by simp)

/-- C5 (amended): running `_sync_directory` twice against an unchanged
remote tree performs zero transfers on the second run, provided every
remote file entry carries a modification time that is not later than the
clock at which the first run writes its files.  (The counterexample
`second_sync_transfers_on_missing_mtime` shows the restriction is needed:
a file with no modification time is re-transferred on every run.) -/
theorem sync_directory_second_run_no_transfers (root localDir : FsPath)
    (remote : RemoteDir) (t1 t2 : Int) (fs : LocalFS)
    (h : ∀ f ∈ remote.files, f.isFile = true → ∃ m, f.mtime = some m ∧ m ≤ t1) :
    (sync_directory root remote localDir t2
      (sync_directory root remote localDir t1 fs).1).2 = 0 := by
  by_cases hD : remote.isDir = true
  · simp only [sync_directory, hD, if_true]
    set fs1 := (remote.files.foldl (syncStep root localDir t1)
      (mkdirParents fs localDir t1, 0)).1 with hfs1
    have hcov : ∀ f ∈ remote.files, f.isFile = true →
        contained root (targetOf localDir f) = true →
        ∃ m, f.mtime = some m ∧
          coveredAt (mkdirParents fs1 localDir t2) (targetOf localDir f) m := by
      intro f hf hfile hcont
      obtain ⟨m, hmt, hm⟩ := h f hf hfile
      refine ⟨m, hmt, coveredAt_mkdirParents _ _ _ _ _ ?_⟩
      rw [hfs1]
      exact syncRun_covered root localDir t1 f m hfile hcont hmt hm remote.files _ hf
    rw [syncRun_skip root localDir t2 remote.files (mkdirParents fs1 localDir t2) 0 hcov]
  · have hD' : remote.isDir = false := by simpa using hD
    simp [sync_directory, hD']

/-- Witness for C5's amended theorem: a concrete one-file tree with a
dated file, first run at time 60, second at time 100. -/
theorem sync_directory_second_run_no_transfers_witness :
    (sync_directory ["r"] ⟨true, [⟨"f", some 50, "x", true⟩]⟩ ["r", "m"] 100
      (sync_directory ["r"] ⟨true, [⟨"f", some 50, "x", true⟩]⟩ ["r", "m"] 60 []).1).2 = 0 :=
  sync_directory_second_run_no_transfers ["r"] ["r", "m"]
    ⟨true, [⟨"f", some 50, "x", true⟩]⟩ 60 100 []
    (by
      intro f hf hfile
      simp only [List.mem_singleton] at hf
      subst hf
      exact ⟨50, rfl, by decide⟩)

/-- C6 (amended): when the remote path is not a directory,
`_sync_directory` emits its warning and performs no transfers; its only
local side effect is ensuring the local target directory chain exists
(the `mkdir` of line 147 runs before the remote check of line 150), and
every pre-existing entry is preserved.  (The counterexample
`sync_directory_missing_remote_creates_dir` shows the original "no side
effects" wording fails.) -/
theorem sync_directory_missing_remote_no_transfer (root localDir : FsPath)
    (remote : RemoteDir) (now : Int) (fs : LocalFS) (h : remote.isDir = false) :
    sync_directory root remote localDir now fs = (mkdirParents fs localDir now, 0) ∧
    ∀ e ∈ fs, e ∈ (sync_directory root remote localDir now fs).1 := by
  have h1 : sync_directory root remote localDir now fs = (mkdirParents fs localDir now, 0) := by
    simp [sync_directory, h]
  refine ⟨h1, fun e he => ?_⟩
  rw [h1]
  exact mem_mkdirParents _ _ _ _ he

/-- Witness for C6's amended theorem at a concrete non-directory remote. -/
theorem sync_directory_missing_remote_no_transfer_witness :
    sync_directory ["r"] ⟨false, []⟩ ["r", "m"] 0 [⟨["r"], true, 0, ""⟩] =
      (mkdirParents [⟨["r"], true, 0, ""⟩] ["r", "m"] 0, 0) ∧
    ∀ e ∈ ([⟨["r"], true, 0, ""⟩] : LocalFS),
      e ∈ (sync_directory ["r"] ⟨false, []⟩ ["r", "m"] 0 [⟨["r"], true, 0, ""⟩]).1 :=
  sync_directory_missing_remote_no_transfer ["r"] ["r", "m"] ⟨false, []⟩ 0
    [⟨["r"], true, 0, ""⟩] rfl

/-- C4: deletion propagation.  First conjunct, in general: after the
deletion step, no entry survives beneath a direct-child directory of the
local model root whose name is not among the manifest's model names.
Second conjunct, one full cycle against a local root holding model
directories A, B, C (with a manifest declaring only A and C, both up to
date): the cycle performs zero transfers, removes directory B and its
contents, and leaves the A and C subtrees exactly as they were.  Third
conjunct: a model declared in the manifest whose remote directory is
unreachable is not deleted — deletion runs after all per-model
reconciliation attempts and is keyed only on manifest names. -/
theorem deletion_propagation :
    (∀ (root : FsPath) (expected : List String) (fs : LocalFS) (e : FsEntry)
        (name : String) (rest : List String),
      e.path = root ++ name :: rest → expected.contains name = false →
      childIsDir fs (root ++ [name]) = true → e ∉ deleteStale root expected fs) ∧
    (let fs0 : LocalFS :=
      [⟨["r"], true, 0, ""⟩,
       ⟨["r", "A"], true, 0, ""⟩, ⟨["r", "A", "f"], false, 100, "v"⟩,
       ⟨["r", "B"], true, 0, ""⟩, ⟨["r", "B", "g"], false, 100, "w"⟩,
       ⟨["r", "C"], true, 0, ""⟩, ⟨["r", "C", "h"], false, 100, "u"⟩]
     let res := run_once ["r"]
      (some ⟨[⟨"A", "hA", "tensorflow", [], []⟩, ⟨"C", "hC", "tensorflow", [], []⟩]⟩)
      (fun s => if s = "hA" then ⟨true, [⟨"f", some 100, "v", true⟩]⟩
        else if s = "hC" then ⟨true, [⟨"h", some 100, "u", true⟩]⟩
        else ⟨false, []⟩)
      200 fs0
     res.2 = 0 ∧
     lookupFs res.1 ["r", "B"] = none ∧
     res.1.filter (fun e => ["r", "B"].isPrefixOf e.path) = [] ∧
     res.1.filter (fun e => ["r", "A"].isPrefixOf e.path) =
       fs0.filter (fun e => ["r", "A"].isPrefixOf e.path) ∧
     res.1.filter (fun e => ["r", "C"].isPrefixOf e.path) =
       fs0.filter (fun e => ["r", "C"].isPrefixOf e.path)) ∧
    (let fsD : LocalFS :=
      [⟨["r"], true, 0, ""⟩, ⟨["r", "D"], true, 0, ""⟩, ⟨["r", "D", "f"], false, 5, "v"⟩]
     let resD := run_once ["r"] (some ⟨[⟨"D", "hD", "tensorflow", [], []⟩]⟩)
      (fun _ => ⟨false, []⟩) 9 fsD
     resD.1.filter (fun e => ["r", "D"].isPrefixOf e.path) =
       fsD.filter (fun e => ["r", "D"].isPrefixOf e.path)) := by
  refine ⟨?_, by decide, by decide⟩
  intro root expected fs e name rest hpath hname hdir
  exact not_mem_deleteStale root expected fs e name rest hpath hname hdir

/-- Witness for C4's general conjunct: a concrete stale directory entry is
gone after the deletion step. -/
theorem deletion_propagation_witness :
    (⟨["r", "B"], true, 0, ""⟩ : FsEntry) ∉
      deleteStale ["r"] ["A"] [⟨["r", "B"], true, 0, ""⟩] :=
  deletion_propagation.1 ["r"] ["A"] [⟨["r", "B"], true, 0, ""⟩]
    ⟨["r", "B"], true, 0, ""⟩ "B" [] rfl (by decide) (by decide)

/-- C9: if the fetched manifest content fails to decode, `run_once`
proceeds with an empty model list, and the deletion step of that same
cycle removes every top-level directory under the local model root
together with all of its contents — one transient parse failure wipes all
locally synchronized models. -/
theorem parse_failure_deletes_all_models (root : FsPath) (hdfs : String → RemoteDir)
    (now : Int) (fs : LocalFS) (hwf : (fs.map FsEntry.path).Nodup)
    (e : FsEntry) (name : String) (rest : List String)
    (he : e ∈ fs) (hpath : e.path = root ++ name :: rest)
    (hdir : childIsDir fs (root ++ [name]) = true) :
    e ∉ (run_once root none hdfs now fs).1 := by
  intro hmem
  have hrun : (run_once root none hdfs now fs).1 =
      writeFileAt (deleteStale root [] fs) (root ++ ["models.config"]) now
        (render_config []) := rfl
  rw [hrun] at hmem
  unfold writeFileAt at hmem
  cases List.mem_append.mp hmem with
  | inl hin =>
    exact not_mem_deleteStale root [] fs e name rest hpath rfl hdir
      (List.mem_filter.mp hin).1
  | inr hin =>
    have heq : e = ⟨root ++ ["models.config"], false, now, render_config []⟩ := by
      simpa using hin
    have hpath2 : root ++ name :: rest = root ++ ["models.config"] := by
      rw [← hpath, heq]
    have hnr := List.append_cancel_left hpath2
    injection hnr with h1 h2
    have hlook : lookupFs fs e.path = some e := lookupFs_of_mem_nodup _ _ hwf he
    have hfalse : childIsDir fs (root ++ [name]) = false := by
      unfold childIsDir
      have hpe : root ++ [name] = e.path := by rw [heq, h1]
      rw [hpe, hlook, heq]
    rw [hfalse] at hdir
    exact absurd hdir (by simp)

/-- Witness for C9: a concrete one-model tree is emptied by a cycle whose
manifest failed to decode. -/
theorem parse_failure_deletes_all_models_witness :
    (⟨["r", "A"], true, 0, ""⟩ : FsEntry) ∉
      (run_once ["r"] none (fun _ => ⟨false, []⟩) 7
        [⟨["r", "A"], true, 0, ""⟩, ⟨["r", "A", "f"], false, 0, "x"⟩]).1 :=
  parse_failure_deletes_all_models ["r"] (fun _ => ⟨false, []⟩) 7
    [⟨["r", "A"], true, 0, ""⟩, ⟨["r", "A", "f"], false, 0, "x"⟩] (by decide)
    ⟨["r", "A"], true, 0, ""⟩ "A" [] (by decide) rfl (by decide)

/-- C10: the deletion step removes only directories: every non-directory
entry directly under the local model root (such as the generated
`models.config` or a lock-marker file) survives `deleteStale` unchanged,
whatever the manifest's model names are. -/
theorem deletion_keeps_top_level_files (root : FsPath) (expected : List String)
    (fs : LocalFS) (e : FsEntry) (name : String)
    (hwf : (fs.map FsEntry.path).Nodup) (he : e ∈ fs)
    (hpath : e.path = root ++ [name]) (hfile : e.isDir = false) :
    e ∈ deleteStale root expected fs := by
  apply List.mem_filter.mpr
  refine ⟨he, ?_⟩
  have hlook : lookupFs fs (root ++ [name]) = some e := by
    rw [← hpath]
    exact lookupFs_of_mem_nodup _ _ hwf he
  have hcid : childIsDir fs (root ++ [name]) = false := by
    unfold childIsDir
    rw [hlook]
    exact hfile
  have hstale : staleEntry root expected fs e = false := by
    unfold staleEntry
    rw [hpath]
    rw [List.drop_left]
    show (root.isPrefixOf (root ++ [name]) &&
      (!expected.contains name && childIsDir fs (root ++ [name]))) = false
    rw [hcid]
    simp
  rw [hstale]
  rfl

/-- Witness for C10: a concrete top-level `models.config` file survives
deletion even with an empty manifest. -/
theorem deletion_keeps_top_level_files_witness :
    (⟨["r", "models.config"], false, 3, "cfg"⟩ : FsEntry) ∈
      deleteStale ["r"] [] [⟨["r", "models.config"], false, 3, "cfg"⟩] :=
  deletion_keeps_top_level_files ["r"] [] [⟨["r", "models.config"], false, 3, "cfg"⟩]
    ⟨["r", "models.config"], false, 3, "cfg"⟩ "models.config" (by decide) (by decide)
    rfl rfl
